import Mathlib

/-!
A verification development for the local-storage-backed user/record
data-management layer of the application (auth.ts + data.ts + types).

The TypeScript source is shallowly embedded:
* `Date` values and `Date.now()` timestamps become `Nat` milliseconds; every
  operation that reads the clock takes the current time as an explicit
  parameter `now`.
* JavaScript numbers on the `value` field become `ℚ` (the values the
  program manipulates are small decimals; `ℚ` models their exact arithmetic).
* The JSON collections in local storage become an explicit `AppState`
  (users list, password map, records list); each manager method that does a
  read-modify-write on its collection becomes a pure function from the
  collection (or state) to the new collection (or state) plus its return
  value.
* `btoa` is a real base64 encoder over the string's (latin-1 truncated)
  character codes.
* A token `btoa(JSON.stringify(payload))` is embedded as `Token.payload p`;
  any string that `atob`/`JSON.parse` rejects is `Token.malformed`.  The
  payload's optional `name` field models that `JSON.parse` may or may not
  find a `name` key (`generateToken` writes none).
-/

/-! ## Generic helpers -/

/-- The three-way comparison produced by the JavaScript pattern
`if (aVal < bVal) comparison = -1; if (aVal > bVal) comparison = 1` on a
linearly ordered value type. -/
def ltCmp {α : Type _} [LinearOrder α] (a b : α) : Int :=
  if a < b then -1 else if b < a then 1 else 0

theorem ltCmp_le_zero_iff {α : Type _} [LinearOrder α] (a b : α) :
    ltCmp a b ≤ 0 ↔ a ≤ b := by
  unfold ltCmp
  rcases lt_trichotomy a b with h | h | h
  · simp [h, le_of_lt h]
  · subst h; simp
  · simp [h, lt_asymm h, not_le.mpr h]

theorem ltCmp_eq_zero_iff {α : Type _} [LinearOrder α] (a b : α) :
    ltCmp a b = 0 ↔ a = b := by
  unfold ltCmp
  rcases lt_trichotomy a b with h | h | h
  · simp [h, ne_of_lt h]
  · subst h; simp
  · simp [h, lt_asymm h, (ne_of_lt h).symm]

theorem ltCmp_neg {α : Type _} [LinearOrder α] (a b : α) :
    ltCmp a b = -(ltCmp b a) := by
  unfold ltCmp
  rcases lt_trichotomy a b with h | h | h
  · simp [h, lt_asymm h]
  · subst h; simp
  · simp [h, lt_asymm h]

/-- Two lists that are permutations of each other and both pairwise ordered
by an asymmetric relation are equal (uniqueness of a strictly sorted
arrangement). -/
theorem eq_of_perm_of_pairwise_asymm {α : Type _} {r : α → α → Prop}
    (asym : ∀ a b, r a b → ¬ r b a) :
    ∀ {l₁ l₂ : List α}, l₁.Perm l₂ → l₁.Pairwise r → l₂.Pairwise r → l₁ = l₂ := by
  intro l₁
  induction l₁ with
  | nil =>
    intro l₂ hp _ _
    exact hp.nil_eq
  | cons x t ih =>
    intro l₂ hp h₁ h₂
    cases l₂ with
    | nil =>
      exact absurd hp.symm.nil_eq (by simp)
    | cons y t₂ =>
      by_cases hxy : x = y
      · subst hxy
        rw [ih hp.cons_inv h₁.tail h₂.tail]
      · have hx2 : x ∈ t₂ := by
          have hx : x ∈ y :: t₂ := hp.mem_iff.mp (List.mem_cons_self x t)
          rcases List.mem_cons.mp hx with h | h
          · exact absurd h hxy
          · exact h
        have hy1 : y ∈ t := by
          have hy : y ∈ x :: t := hp.symm.mem_iff.mp (List.mem_cons_self y t₂)
          rcases List.mem_cons.mp hy with h | h
          · exact absurd h.symm hxy
          · exact h
        have rxy : r x y := List.rel_of_pairwise_cons h₁ hy1
        have ryx : r y x := List.rel_of_pairwise_cons h₂ hx2
        exact absurd rxy (asym y x ryx)

/-- Substring test on character lists, modelling JavaScript
`String.prototype.includes`. -/
def hasInfix (pat : List Char) : List Char → Bool
  | [] => pat.isEmpty
  | c :: rest => pat.isPrefixOf (c :: rest) || hasInfix pat rest

/-- JavaScript `haystack.includes(needle)`. -/
def strContains (haystack pat : String) : Bool :=
  hasInfix pat.data haystack.data

/-- JavaScript `String.prototype.toLowerCase`, character-wise (the strings
the program lowercases are ASCII, where the two agree). -/
def toLowerStr (s : String) : String :=
  String.mk (s.data.map Char.toLower)

/-! ## Data model (src/types/index.ts) -/

/-- `UserRole = 'admin' | 'user'`. -/
inductive Role where
  | admin
  | user
deriving DecidableEq, Repr

/-- `RecordStatus = 'active' | 'inactive'`. -/
inductive Status where
  | active
  | inactive
deriving DecidableEq, Repr

/-- The string a `Status` denotes in the source (used where JavaScript
compares the status strings with `<` / `>`). -/
def statusStr : Status → String
  | .active => "active"
  | .inactive => "inactive"

structure User where
  id : String
  email : String
  name : String
  role : Role
  createdAt : Nat
  updatedAt : Nat
deriving DecidableEq, Repr

structure SignupForm where
  name : String
  email : String
  password : String
  confirmPassword : String
deriving DecidableEq, Repr

/-- The decoded JSON token payload.  `generateToken` serialises
`{id, email, role, exp}` (no `name` key, hence `name : Option String`,
written as `none` at issuance; a hand-crafted token could carry one). -/
structure TokenPayload where
  id : String
  email : String
  name : Option String
  role : Role
  exp : Nat
deriving DecidableEq, Repr

/-- A token string: either `btoa(JSON.stringify(p))` for a payload `p`, or
any string on which `atob`/`JSON.parse` throws. -/
inductive Token where
  | payload (p : TokenPayload)
  | malformed
deriving DecidableEq, Repr

structure AuthUser where
  id : String
  email : String
  name : String
  role : Role
  token : Token
deriving DecidableEq, Repr

structure DataForm where
  title : String
  description : String
  category : String
  value : ℚ
  status : Status
deriving DecidableEq, Repr

/-- `Partial<DataForm>`: the optional-field update object accepted by
`DataManager.updateRecord` (only the five form fields can appear). -/
structure DataUpdate where
  title : Option String
  description : Option String
  category : Option String
  value : Option ℚ
  status : Option Status
deriving DecidableEq, Repr

structure DataRecord where
  id : String
  userId : String
  title : String
  description : String
  category : String
  value : ℚ
  status : Status
  createdAt : Nat
  updatedAt : Nat
deriving DecidableEq, Repr

/-- `SortOrder = 'asc' | 'desc'`. -/
inductive SortOrder where
  | asc
  | desc
deriving DecidableEq, Repr

/-- `keyof DataRecord`, the legal sort keys. -/
inductive SortKey where
  | id
  | userId
  | title
  | description
  | category
  | value
  | status
  | createdAt
  | updatedAt
deriving DecidableEq, Repr

structure SortConfig where
  key : SortKey
  direction : SortOrder
deriving DecidableEq, Repr

structure DateRange where
  start : Nat
  stop : Nat
deriving DecidableEq, Repr

/-- `FilterConfig` with every field optional, as in the source interface. -/
structure FilterConfig where
  category : Option String
  status : Option Status
  dateRange : Option DateRange
  search : Option String
deriving DecidableEq, Repr

/-- The password map `Record<string, string>` (user id → password hash);
a JavaScript object, so keys are unique and lookup of a missing key gives
`undefined` (here `none`). -/
def Passwords : Type := String → Option String

/-- The three independent local-storage collections. -/
structure AppState where
  users : List User
  passwords : Passwords
  records : List DataRecord

/-! ## auth.ts -/

/-- The base64 alphabet character at index `n`. -/
def base64Char (n : Nat) : Char :=
  "ABCDEFGHIJKLMNOPQRSTUVWXYZabcdefghijklmnopqrstuvwxyz0123456789+/".data.getD n 'A'

/-- Base64-encode a byte list, three bytes to four output characters, with
`=` padding. -/
def btoaChunks : List Nat → List Char
  | [] => []
  | [b1] => [base64Char (b1 / 4), base64Char (b1 % 4 * 16), '=', '=']
  | [b1, b2] =>
      [base64Char (b1 / 4), base64Char (b1 % 4 * 16 + b2 / 16),
       base64Char (b2 % 16 * 4), '=']
  | b1 :: b2 :: b3 :: rest =>
      base64Char (b1 / 4) :: base64Char (b1 % 4 * 16 + b2 / 16) ::
      base64Char (b2 % 16 * 4 + b3 / 64) :: base64Char (b3 % 64) ::
      btoaChunks rest

/-- Browser `btoa` over the string's character codes (latin-1; codes above
255 would make the browser throw, `% 256` keeps the model total — every
string the program encodes is ASCII). -/
def btoa (s : String) : String :=
  String.mk (btoaChunks (s.data.map (fun c => c.toNat % 256)))

/-- `hashPassword`: `btoa(password + 'salt_key_2024')`. -/
def hashPassword (password : String) : String :=
  btoa (password ++ "salt_key_2024")

/-- `verifyPassword`: recompute and compare. -/
def verifyPassword (password hash : String) : Bool :=
  hashPassword password == hash

/-- `generateToken`: payload `{id, email, role, exp: Date.now() + 24h}`,
base64-encoded.  Note the payload carries no `name` field. -/
def generateToken (user : User) (now : Nat) : Token :=
  Token.payload
    { id := user.id
      email := user.email
      name := none
      role := user.role
      exp := now + 24 * 60 * 60 * 1000 }

/-- `validateToken`: decode (a malformed token throws, caught to `null`),
reject if `payload.exp < Date.now()`, else return the identity with
`name: payload.name || ''`. -/
def validateToken (token : Token) (now : Nat) : Option AuthUser :=
  match token with
  | .malformed => none
  | .payload p =>
      if p.exp < now then
        none
      else
        some
          { id := p.id
            email := p.email
            name := p.name.getD ""
            role := p.role
            token := token }

namespace UserManager

/-- `UserManager.addUser`: id and timestamps from `Date.now()`, role
`admin` exactly when the collection was empty, append and save.  Returns
the new collection and the created user. -/
def addUser (users : List User) (form : SignupForm) (now : Nat) :
    List User × User :=
  let newUser : User :=
    { id := toString now
      name := form.name
      email := form.email
      role := if users.isEmpty then .admin else .user
      createdAt := now
      updatedAt := now }
  (users ++ [newUser], newUser)

/-- `UserManager.findByEmail`: first user with that exact email. -/
def findByEmail (users : List User) (email : String) : Option User :=
  users.find? (fun u => u.email == email)

/-- `UserManager.deleteUser`: filter the id out; if the length did not
change, report failure and leave the collection as it was. -/
def deleteUser (users : List User) (id : String) : List User × Bool :=
  let filteredUsers := users.filter (fun u => u.id != id)
  if filteredUsers.length = users.length then (users, false)
  else (filteredUsers, true)

/-- `UserManager.deleteUser` acting on the whole store: it reads and writes
only the users collection. -/
def deleteUserState (st : AppState) (id : String) : AppState × Bool :=
  let res := deleteUser st.users id
  ({ st with users := res.1 }, res.2)

end UserManager

namespace PasswordManager

/-- `PasswordManager.savePassword`: upsert `passwords[userId] = hash`. -/
def savePassword (passwords : Passwords) (userId password : String) :
    Passwords :=
  fun k => if k = userId then some (hashPassword password) else passwords k

/-- `PasswordManager.verifyUserPassword`: look the hash up; a missing key
(or the falsy empty string) yields `false`. -/
def verifyUserPassword (passwords : Passwords) (userId password : String) :
    Bool :=
  match passwords userId with
  | some storedHash =>
      if storedHash = "" then false else verifyPassword password storedHash
  | none => false

/-- `PasswordManager.deletePassword`: remove the key. -/
def deletePassword (passwords : Passwords) (userId : String) : Passwords :=
  fun k => if k = userId then none else passwords k

/-- `PasswordManager.deletePassword` acting on the whole store. -/
def deletePasswordState (st : AppState) (userId : String) : AppState :=
  { st with passwords := deletePassword st.passwords userId }

end PasswordManager

/-- `initializeApp`: when the users collection is empty, create the default
admin account and store its password hash; otherwise do nothing. -/
def initializeApp (st : AppState) (now : Nat) : AppState :=
  if st.users.isEmpty then
    let adminData : SignupForm :=
      { name := "Admin User"
        email := "admin@example.com"
        password := "admin123"
        confirmPassword := "admin123" }
    let res := UserManager.addUser st.users adminData now
    { st with
        users := res.1
        passwords :=
          PasswordManager.savePassword st.passwords res.2.id
            adminData.password }
  else st

/-! ## data.ts -/

namespace DataManager

/-- `DataManager.addRecord`: id and both timestamps from `Date.now()`,
append and save.  Returns the new collection and the created record. -/
def addRecord (records : List DataRecord) (userId : String) (data : DataForm)
    (now : Nat) : List DataRecord × DataRecord :=
  let newRecord : DataRecord :=
    { id := toString now
      userId := userId
      title := data.title
      description := data.description
      category := data.category
      value := data.value
      status := data.status
      createdAt := now
      updatedAt := now }
  (records ++ [newRecord], newRecord)

/-- The spread merge `{ ...records[index], ...updates, updatedAt: new Date() }`:
fields present in the update object replace the old ones, `updatedAt` is
refreshed, everything else is kept. -/
def applyUpdate (r : DataRecord) (u : DataUpdate) (now : Nat) : DataRecord :=
  { r with
      title := u.title.getD r.title
      description := u.description.getD r.description
      category := u.category.getD r.category
      value := u.value.getD r.value
      status := u.status.getD r.status
      updatedAt := now }

/-- `DataManager.updateRecord`: `findIndex` on the id then in-place `set`
of the merged record, modelled as replacement of the first match; `false`
and no change when the id is absent. -/
def updateRecord : List DataRecord → String → DataUpdate → Nat →
    List DataRecord × Bool
  | [], _, _, _ => ([], false)
  | r :: rs, id, u, now =>
      if r.id = id then (applyUpdate r u now :: rs, true)
      else
        let res := updateRecord rs id u now
        (r :: res.1, res.2)

/-- `DataManager.deleteRecord`: filter the id out; if the length did not
change, report failure and leave the collection as it was. -/
def deleteRecord (records : List DataRecord) (id : String) :
    List DataRecord × Bool :=
  let filteredRecords := records.filter (fun r => r.id != id)
  if filteredRecords.length = records.length then (records, false)
  else (filteredRecords, true)

end DataManager

namespace DataUtils

/-- The comparison `aVal < bVal ? -1 : aVal > bVal ? 1 : 0` on the selected
field (`a[config.key]`); strings compare lexicographically, numbers and
dates numerically, the status enum by its string. -/
def cmpKey : SortKey → DataRecord → DataRecord → Int
  | .id, a, b => ltCmp a.id b.id
  | .userId, a, b => ltCmp a.userId b.userId
  | .title, a, b => ltCmp a.title b.title
  | .description, a, b => ltCmp a.description b.description
  | .category, a, b => ltCmp a.category b.category
  | .value, a, b => ltCmp a.value b.value
  | .status, a, b => ltCmp (statusStr a.status) (statusStr b.status)
  | .createdAt, a, b => ltCmp a.createdAt b.createdAt
  | .updatedAt, a, b => ltCmp a.updatedAt b.updatedAt

/-- The comparator handed to `Array.prototype.sort`, turned into the
"may come before" relation `comparator(a,b) ≤ 0` used by a stable sort
(`desc` negates the comparison). -/
def recordSortLE (config : SortConfig) (a b : DataRecord) : Bool :=
  let comparison := cmpKey config.key a b
  decide ((if config.direction = .desc then -comparison else comparison) ≤ 0)

/-- `DataUtils.sortRecords`: `[...records].sort(comparator)`.
`Array.prototype.sort` is stable per the ECMAScript specification, so it is
embedded as the stable `mergeSort` on the comparator's ≤-relation. -/
def sortRecords (records : List DataRecord) (config : SortConfig) :
    List DataRecord :=
  records.mergeSort (recordSortLE config)

/-- Ordering of the named field, spelled independently of the comparator:
the field of the first record is ≤ the field of the second. -/
def keyLe : SortKey → DataRecord → DataRecord → Prop
  | .id, a, b => a.id ≤ b.id
  | .userId, a, b => a.userId ≤ b.userId
  | .title, a, b => a.title ≤ b.title
  | .description, a, b => a.description ≤ b.description
  | .category, a, b => a.category ≤ b.category
  | .value, a, b => a.value ≤ b.value
  | .status, a, b => statusStr a.status ≤ statusStr b.status
  | .createdAt, a, b => a.createdAt ≤ b.createdAt
  | .updatedAt, a, b => a.updatedAt ≤ b.updatedAt

/-- One record's passage through the body of the `filter` callback in
`DataUtils.filterRecords`, with JavaScript truthiness made explicit: a
missing (or empty-string) criterion is skipped, the date range excludes
`createdAt < start` or `createdAt > end`, and the search term is matched
case-insensitively inside `` `${title} ${description} ${category}` ``. -/
def recordPasses (filter : FilterConfig) (r : DataRecord) : Bool :=
  if (match filter.category with
      | some c => c != "" && r.category != c
      | none => false) then false
  else if (match filter.status with
      | some s => r.status != s
      | none => false) then false
  else if (match filter.dateRange with
      | some dr =>
          decide (r.createdAt < dr.start) || decide (dr.stop < r.createdAt)
      | none => false) then false
  else if (match filter.search with
      | some s =>
          s != "" &&
            !strContains
              (toLowerStr (r.title ++ " " ++ r.description ++ " " ++ r.category))
              (toLowerStr s)
      | none => false) then false
  else true

/-- `DataUtils.filterRecords`. -/
def filterRecords (records : List DataRecord) (filter : FilterConfig) :
    List DataRecord :=
  records.filter (recordPasses filter)

structure RecordStats where
  total : Nat
  active : Nat
  inactive : Nat
  totalValue : ℚ
  avgValue : ℚ
deriving DecidableEq, Repr

/-- `DataUtils.getRecordStats`. -/
def getRecordStats (records : List DataRecord) : RecordStats :=
  let total := records.length
  let active := (records.filter (fun r => r.status == Status.active)).length
  let inactive :=
    (records.filter (fun r => r.status == Status.inactive)).length
  let totalValue := records.foldl (fun sum r => sum + r.value) 0
  let avgValue := if total > 0 then totalValue / (total : ℚ) else 0
  { total := total
    active := active
    inactive := inactive
    totalValue := totalValue
    avgValue := avgValue }

end DataUtils

/-! ## Concrete fixtures -/

/-- A user whose name is not the empty string. -/
def aliceUser : User :=
  { id := "u1", email := "alice@example.com", name := "Alice",
    role := .user, createdAt := 0, updatedAt := 0 }

/-- The record `{title:"A", value:10, status:"active"}` of the stats
scenario, with the remaining fields filled concretely. -/
def statsRecA : DataRecord :=
  { id := "1", userId := "u1", title := "A", description := "d",
    category := "c", value := 10, status := .active,
    createdAt := 0, updatedAt := 0 }

/-- The record `{title:"B", value:20, status:"inactive"}` of the stats
scenario. -/
def statsRecB : DataRecord :=
  { id := "2", userId := "u1", title := "B", description := "d",
    category := "c", value := 20, status := .inactive,
    createdAt := 0, updatedAt := 0 }

/-! ## Helper lemmas -/

/-- Folding `+ value` equals the sum of the mapped values. -/
theorem foldl_add_value (l : List DataRecord) (init : ℚ) :
    l.foldl (fun sum r => sum + r.value) init =
      init + (l.map (fun r => r.value)).sum := by
  induction l generalizing init with
  | nil => simp
  | cons r rs ih => simp [ih, add_assoc]

/-! ## Claims -/

/-- C9: `UserManager.deleteUser` writes only the users collection: the
password map of the store is left untouched (in particular the deleted
user's entry stays), and the entry disappears exactly when
`PasswordManager.deletePassword` is invoked for that id. -/
theorem C9_deleteUser_passwords_frame (st : AppState) (id : String) :
    (UserManager.deleteUserState st id).1.passwords = st.passwords ∧
    (UserManager.deleteUserState st id).1.passwords id = st.passwords id ∧
    (PasswordManager.deletePasswordState st id).passwords id = none := by
  refine ⟨rfl, rfl, ?_⟩
  simp [PasswordManager.deletePasswordState, PasswordManager.deletePassword]

/-- C8: `DataUtils.getRecordStats` returns the record count, the counts of
active and inactive records, the sum of the values, and their average
(0 for the empty list); on the two scenario records it yields
total=2, active=1, inactive=1, totalValue=30, avgValue=15. -/
theorem C8_getRecordStats (records : List DataRecord) :
    (DataUtils.getRecordStats records).total = records.length ∧
    (DataUtils.getRecordStats records).active =
      records.countP (fun r => decide (r.status = Status.active)) ∧
    (DataUtils.getRecordStats records).inactive =
      records.countP (fun r => decide (r.status = Status.inactive)) ∧
    (DataUtils.getRecordStats records).totalValue =
      (records.map (fun r => r.value)).sum ∧
    (0 < records.length →
      (DataUtils.getRecordStats records).avgValue =
        (DataUtils.getRecordStats records).totalValue / (records.length : ℚ)) ∧
    (records = [] → (DataUtils.getRecordStats records).avgValue = 0) ∧
    DataUtils.getRecordStats [statsRecA, statsRecB] =
      { total := 2, active := 1, inactive := 1, totalValue := 30,
        avgValue := 15 } := by
  refine ⟨rfl, ?_, ?_, ?_, ?_, ?_, ?_⟩
  · rw [List.countP_eq_length_filter]; rfl
  · rw [List.countP_eq_length_filter]; rfl
  · simp [DataUtils.getRecordStats, foldl_add_value]
  · intro h
    simp [DataUtils.getRecordStats, Nat.pos_iff_ne_zero.mp h]
  · intro h
    subst h
    simp [DataUtils.getRecordStats]
  · show DataUtils.getRecordStats [statsRecA, statsRecB] = _
    simp only [DataUtils.getRecordStats, statsRecA, statsRecB, List.filter,
      List.foldl, List.length]
    norm_num

/-- C8 witness: the theorem applied at the scenario list, its hypotheses
discharged there. -/
theorem C8_getRecordStats_witness :
    (DataUtils.getRecordStats [statsRecA, statsRecB]).avgValue =
      (DataUtils.getRecordStats [statsRecA, statsRecB]).totalValue / (2 : ℚ) ∧
    DataUtils.getRecordStats [statsRecA, statsRecB] =
      { total := 2, active := 1, inactive := 1, totalValue := 30,
        avgValue := 15 } := by
  have h := C8_getRecordStats [statsRecA, statsRecB]
  exact ⟨h.2.2.2.2.1 (by decide), h.2.2.2.2.2.2⟩

/-- C5: on an empty users collection `initializeApp` creates exactly one
user, with email `admin@example.com` and role `admin`, findable by that
email, and whose password `admin123` verifies; on a non-empty collection it
changes nothing. -/
theorem C5_initializeApp (st : AppState) (now : Nat) :
    (st.users = [] →
      (initializeApp st now).users.length = 1 ∧
      ∀ u ∈ (initializeApp st now).users,
        u.email = "admin@example.com" ∧ u.role = Role.admin ∧
        UserManager.findByEmail (initializeApp st now).users
          "admin@example.com" = some u ∧
        PasswordManager.verifyUserPassword (initializeApp st now).passwords
          u.id "admin123" = true) ∧
    (st.users ≠ [] → initializeApp st now = st) := by
  constructor
  · intro h
    simp only [initializeApp, UserManager.addUser, h, List.isEmpty_nil,
      if_true, List.nil_append]
    refine ⟨rfl, ?_⟩
    intro u hu
    simp only [List.mem_singleton] at hu
    subst hu
    refine ⟨rfl, rfl, by simp [UserManager.findByEmail], ?_⟩
    have hne : hashPassword "admin123" ≠ "" := by decide
    simp [PasswordManager.verifyUserPassword, PasswordManager.savePassword,
      hne, verifyPassword]
  · intro h
    simp [initializeApp, List.isEmpty_iff, h]

/-- C5 witness: the theorem applied to the empty store at time 0. -/
theorem C5_initializeApp_witness :
    (initializeApp { users := [], passwords := fun _ => none, records := [] }
        0).users.length = 1 ∧
    initializeApp
        { users := [aliceUser], passwords := fun _ => none, records := [] } 0 =
      { users := [aliceUser], passwords := fun _ => none, records := [] } := by
  refine ⟨((C5_initializeApp _ 0).1 rfl).1, (C5_initializeApp _ 0).2 (by simp)⟩

/-- C2 counterexample: at time 0 (strictly before the expiry timestamp
86400000) the validated identity of a freshly issued token for a user
named "Alice" carries the empty name, not the user's name — the payload
serialised by `generateToken` has no `name` field. -/
theorem C2_counterexample :
    (0 : Nat) < 0 + 24 * 60 * 60 * 1000 ∧
    (validateToken (generateToken aliceUser 0) 0).map AuthUser.name =
      some "" ∧
    aliceUser.name = "Alice" := by
  refine ⟨by decide, rfl, rfl⟩

/-- C2 (amended): validating a freshly issued token strictly before its
expiry timestamp (issuance + 24h) returns the user's id, email and role but
always the empty string as name (the payload omits it); validating at any
time strictly after the expiry timestamp returns `none`, and a malformed
token returns `none` rather than raising. -/
theorem C2_token_roundtrip (u : User) (issued checked : Nat) :
    (checked < issued + 24 * 60 * 60 * 1000 →
      validateToken (generateToken u issued) checked =
        some { id := u.id, email := u.email, name := "", role := u.role,
               token := generateToken u issued }) ∧
    (issued + 24 * 60 * 60 * 1000 < checked →
      validateToken (generateToken u issued) checked = none) ∧
    validateToken Token.malformed checked = none := by
  refine ⟨?_, ?_, rfl⟩
  · intro h
    simp only [validateToken, generateToken]
    rw [if_neg (by omega)]
    rfl
  · intro h
    simp only [validateToken, generateToken]
    rw [if_pos (by omega)]

/-- C2 witness: the amended theorem applied to a concrete user, once at a
time before expiry and once after it. -/
theorem C2_token_roundtrip_witness :
    validateToken (generateToken aliceUser 0) 5 =
      some { id := "u1", email := "alice@example.com", name := "",
             role := Role.user, token := generateToken aliceUser 0 } ∧
    validateToken (generateToken aliceUser 0) 100000000 = none := by
  exact ⟨(C2_token_roundtrip aliceUser 0 5).1 (by decide),
    (C2_token_roundtrip aliceUser 0 100000000).2.1 (by decide)⟩

/-- `updateRecord` on a list whose prefix contains no record with the
target id replaces the first matching record and reports success. -/
theorem updateRecord_append_first (l₁ l₂ : List DataRecord) (r : DataRecord)
    (u : DataUpdate) (now : Nat) (hfirst : ∀ x ∈ l₁, x.id ≠ r.id) :
    DataManager.updateRecord (l₁ ++ r :: l₂) r.id u now =
      (l₁ ++ DataManager.applyUpdate r u now :: l₂, true) := by
  induction l₁ with
  | nil => simp [DataManager.updateRecord]
  | cons x xs ih =>
    have hx : x.id ≠ r.id := hfirst x (List.mem_cons_self x xs)
    have ih' : DataManager.updateRecord (xs.append (r :: l₂)) r.id u now =
        (xs ++ DataManager.applyUpdate r u now :: l₂, true) :=
      ih (fun y hy => hfirst y (List.mem_cons_of_mem x hy))
    simp only [List.cons_append, DataManager.updateRecord, if_neg hx, ih']

/-- C3: a record produced by `addRecord` satisfies
`createdAt ≤ updatedAt` (both equal the creation instant); a successful
`updateRecord` at a wall-clock instant `now2` later than the record's
current `updatedAt` succeeds, replaces exactly that record, keeps
`createdAt ≤ updatedAt`, and strictly increases `updatedAt`.  (`Date.now()`
is monotone; `hclock` expresses that the clock strictly advanced between the
two mutations, which is also what makes the increase strict in the
browser.) -/
theorem C3_updatedAt_invariant (records l₁ l₂ : List DataRecord)
    (r : DataRecord) (userId : String) (data : DataForm) (u : DataUpdate)
    (now now2 : Nat)
    (hsplit : records = l₁ ++ r :: l₂)
    (hfirst : ∀ x ∈ l₁, x.id ≠ r.id)
    (hinv : r.createdAt ≤ r.updatedAt)
    (hclock : r.updatedAt < now2) :
    (DataManager.addRecord records userId data now).2.createdAt ≤
      (DataManager.addRecord records userId data now).2.updatedAt ∧
    (DataManager.updateRecord records r.id u now2).2 = true ∧
    DataManager.updateRecord records r.id u now2 =
      (l₁ ++ DataManager.applyUpdate r u now2 :: l₂, true) ∧
    (DataManager.applyUpdate r u now2).createdAt ≤
      (DataManager.applyUpdate r u now2).updatedAt ∧
    r.updatedAt < (DataManager.applyUpdate r u now2).updatedAt := by
  subst hsplit
  have hupd := updateRecord_append_first l₁ l₂ r u now2 hfirst
  refine ⟨le_refl _, by rw [hupd], hupd, ?_, hclock⟩
  show r.createdAt ≤ now2
  exact hinv.trans (le_of_lt hclock)

/-- C3 witness: a concrete record created at time 0 and updated at time 5. -/
theorem C3_updatedAt_invariant_witness :
    (DataManager.updateRecord [statsRecA] "1"
        { title := some "T", description := none, category := none,
          value := none, status := none } 5).2 = true ∧
    statsRecA.updatedAt <
      (DataManager.applyUpdate statsRecA
        { title := some "T", description := none, category := none,
          value := none, status := none } 5).updatedAt := by
  have h := C3_updatedAt_invariant [statsRecA] [] [] statsRecA "u1"
    { title := "t", description := "d", category := "c", value := 0,
      status := .active }
    { title := some "T", description := none, category := none,
      value := none, status := none }
    0 5 rfl (by simp) (by decide) (by decide)
  exact ⟨h.2.1, h.2.2.2.2⟩

/-- If no element of `l` has key `id`, the delete-style filter keeps
everything. -/
theorem filter_key_ne_of_not_mem {α : Type _} (key : α → String) (l : List α)
    (id : String) (h : id ∉ l.map key) :
    l.filter (fun a => key a != id) = l :=
  List.filter_eq_self.mpr (fun a ha => by
    simp only [bne_iff_ne, ne_eq]
    intro hk
    exact h (hk ▸ List.mem_map_of_mem key ha))

/-- Removed and kept elements partition the length. -/
theorem length_filter_bne {α : Type _} (key : α → String) (l : List α)
    (id : String) :
    (l.filter (fun a => key a != id)).length +
      l.countP (fun a => key a == id) = l.length := by
  induction l with
  | nil => rfl
  | cons x xs ih =>
    cases h : key x == id with
    | true =>
      simp only [List.filter_cons, List.countP_cons, h, bne] at ih ⊢
      simp
      omega
    | false =>
      simp only [List.filter_cons, List.countP_cons, h, bne] at ih ⊢
      simp
      omega

/-- With pairwise-distinct keys, a present key is carried by exactly one
element. -/
theorem countP_key_eq_one {α : Type _} (key : α → String) (l : List α)
    (id : String) (hnd : (l.map key).Nodup) (h : id ∈ l.map key) :
    l.countP (fun a => key a == id) = 1 := by
  have h1 : (l.map key).count id = 1 := List.count_eq_one_of_mem hnd h
  rw [List.count, List.countP_map] at h1
  simpa [Function.comp] using h1

/-- After the delete-style filter, the key is gone. -/
theorem not_mem_map_filter_key {α : Type _} (key : α → String) (l : List α)
    (id : String) :
    id ∉ (l.filter (fun a => key a != id)).map key := by
  intro hmem
  rcases List.mem_map.mp hmem with ⟨a, ha, hka⟩
  have := (List.mem_filter.mp ha).2
  rw [hka] at this
  simp at this

/-- C4: `deleteRecord` and `deleteUser` on a collection with
pairwise-distinct ids (the store invariant) return `false` and leave the
collection untouched when the id is absent, and return `true` removing
exactly the one entry with that id otherwise; deleting the same id a second
time then returns `false`. -/
theorem C4_delete_semantics (records : List DataRecord) (users : List User)
    (rid uid : String)
    (hndr : (records.map DataRecord.id).Nodup)
    (hndu : (users.map User.id).Nodup) :
    (rid ∉ records.map DataRecord.id →
      DataManager.deleteRecord records rid = (records, false)) ∧
    (rid ∈ records.map DataRecord.id →
      (DataManager.deleteRecord records rid).2 = true ∧
      (DataManager.deleteRecord records rid).1 =
        records.filter (fun r => r.id != rid) ∧
      (DataManager.deleteRecord records rid).1.length + 1 = records.length ∧
      DataManager.deleteRecord (DataManager.deleteRecord records rid).1 rid =
        ((DataManager.deleteRecord records rid).1, false)) ∧
    (uid ∉ users.map User.id →
      UserManager.deleteUser users uid = (users, false)) ∧
    (uid ∈ users.map User.id →
      (UserManager.deleteUser users uid).2 = true ∧
      (UserManager.deleteUser users uid).1 =
        users.filter (fun u => u.id != uid) ∧
      (UserManager.deleteUser users uid).1.length + 1 = users.length ∧
      UserManager.deleteUser (UserManager.deleteUser users uid).1 uid =
        ((UserManager.deleteUser users uid).1, false)) := by
  have missR : ∀ (l : List DataRecord), rid ∉ l.map DataRecord.id →
      DataManager.deleteRecord l rid = (l, false) := by
    intro l h
    unfold DataManager.deleteRecord
    rw [filter_key_ne_of_not_mem DataRecord.id l rid h, if_pos rfl]
  have missU : ∀ (l : List User), uid ∉ l.map User.id →
      UserManager.deleteUser l uid = (l, false) := by
    intro l h
    unfold UserManager.deleteUser
    rw [filter_key_ne_of_not_mem User.id l uid h, if_pos rfl]
  refine ⟨missR records, ?_, missU users, ?_⟩
  · intro h
    have hlen : (records.filter (fun r => r.id != rid)).length + 1 =
        records.length := by
      have h1 := length_filter_bne DataRecord.id records rid
      rw [countP_key_eq_one DataRecord.id records rid hndr h] at h1
      exact h1
    have hne : ¬((records.filter (fun r => r.id != rid)).length =
        records.length) := by omega
    have heq : DataManager.deleteRecord records rid =
        (records.filter (fun r => r.id != rid), true) := by
      unfold DataManager.deleteRecord
      rw [if_neg hne]
    rw [heq]
    exact ⟨rfl, rfl, hlen,
      missR _ (not_mem_map_filter_key DataRecord.id records rid)⟩
  · intro h
    have hlen : (users.filter (fun u => u.id != uid)).length + 1 =
        users.length := by
      have h1 := length_filter_bne User.id users uid
      rw [countP_key_eq_one User.id users uid hndu h] at h1
      exact h1
    have hne : ¬((users.filter (fun u => u.id != uid)).length =
        users.length) := by omega
    have heq : UserManager.deleteUser users uid =
        (users.filter (fun u => u.id != uid), true) := by
      unfold UserManager.deleteUser
      rw [if_neg hne]
    rw [heq]
    exact ⟨rfl, rfl, hlen,
      missU _ (not_mem_map_filter_key User.id users uid)⟩

/-- C4 witness: deleting id "1" from a one-record collection succeeds and a
second delete fails; deleting a missing id from a one-user collection
fails. -/
theorem C4_delete_semantics_witness :
    (DataManager.deleteRecord [statsRecA] "1").2 = true ∧
    DataManager.deleteRecord (DataManager.deleteRecord [statsRecA] "1").1 "1" =
      ((DataManager.deleteRecord [statsRecA] "1").1, false) ∧
    UserManager.deleteUser [aliceUser] "nope" = ([aliceUser], false) := by
  have h := C4_delete_semantics [statsRecA] [aliceUser] "1" "nope"
    (by decide) (by decide)
  have hhit := h.2.1 (by decide)
  exact ⟨hhit.1, hhit.2.2.2, h.2.2.1 (by decide)⟩

/-- With pairwise-distinct ids, a successful `updateRecord` is precisely
the pointwise map that rewrites the one matching record and keeps every
other record. -/
theorem updateRecord_eq_map (records : List DataRecord) (id : String)
    (u : DataUpdate) (now : Nat)
    (hnd : (records.map DataRecord.id).Nodup)
    (hmem : id ∈ records.map DataRecord.id) :
    DataManager.updateRecord records id u now =
      (records.map
        (fun r => if r.id = id then DataManager.applyUpdate r u now else r),
       true) := by
  induction records with
  | nil => simp at hmem
  | cons x xs ih =>
    by_cases hx : x.id = id
    · have htail : xs.map (fun r =>
          if r.id = id then DataManager.applyUpdate r u now else r) = xs := by
        have hno : ∀ r ∈ xs, r.id ≠ id := by
          intro r hr heq
          have hmemx : x.id ∈ xs.map DataRecord.id := by
            rw [hx, ← heq]
            exact List.mem_map_of_mem _ hr
          exact (List.nodup_cons.mp (by simpa using hnd)).1 hmemx
        have := List.map_congr_left
          (f := fun r =>
            if r.id = id then DataManager.applyUpdate r u now else r)
          (g := fun r => r) (fun a ha => if_neg (hno a ha))
        simpa using this
      simp only [DataManager.updateRecord, if_pos hx, List.map_cons, htail]
    · have hmem' : id ∈ xs.map DataRecord.id := by
        rcases (by simpa using hmem : id = x.id ∨ ∃ a ∈ xs, a.id = id) with
          h | ⟨a, ha, hai⟩
        · exact absurd h.symm hx
        · exact List.mem_map.mpr ⟨a, ha, hai⟩
      have hnd' : (xs.map DataRecord.id).Nodup :=
        (List.nodup_cons.mp (by simpa using hnd)).2
      have ih' := ih hnd' hmem'
      simp only [DataManager.updateRecord, if_neg hx, List.map_cons, ih']

/-- C10: a successful `updateRecord` with a form-field-only update object
succeeds, rewrites exactly the matching record in place (every
non-matching record, and the order and length of the collection, are
unchanged — the result is the pointwise map), and the merge preserves the
target's `id`, `userId`, and `createdAt`. -/
theorem C10_updateRecord_frame (records : List DataRecord) (id : String)
    (u : DataUpdate) (now : Nat)
    (hnd : (records.map DataRecord.id).Nodup)
    (hmem : id ∈ records.map DataRecord.id) :
    (DataManager.updateRecord records id u now).2 = true ∧
    (DataManager.updateRecord records id u now).1 =
      records.map
        (fun r => if r.id = id then DataManager.applyUpdate r u now else r) ∧
    (DataManager.updateRecord records id u now).1.length = records.length ∧
    (∀ r : DataRecord,
      (DataManager.applyUpdate r u now).id = r.id ∧
      (DataManager.applyUpdate r u now).userId = r.userId ∧
      (DataManager.applyUpdate r u now).createdAt = r.createdAt) := by
  have h := updateRecord_eq_map records id u now hnd hmem
  rw [h]
  exact ⟨rfl, rfl, by simp, fun r => ⟨rfl, rfl, rfl⟩⟩

/-- C10 witness: updating record "1" in a two-record collection leaves the
other record, the order, and the target's identity fields intact. -/
theorem C10_updateRecord_frame_witness :
    (DataManager.updateRecord [statsRecA, statsRecB] "1"
        { title := some "T", description := none, category := none,
          value := none, status := none } 7).2 = true ∧
    (DataManager.updateRecord [statsRecA, statsRecB] "1"
        { title := some "T", description := none, category := none,
          value := none, status := none } 7).1.length = 2 := by
  have h := C10_updateRecord_frame [statsRecA, statsRecB] "1"
    { title := some "T", description := none, category := none,
      value := none, status := none } 7 (by decide) (by decide)
  exact ⟨h.1, h.2.2.1⟩

/-- The filter criteria as the specification words them (amended): a
conjunction of category equality, status equality, inclusive date-range
membership of `createdAt`, and case-insensitive substring search of the
term in the space-separated concatenation of title, description and
category; an absent criterion — or an empty-string category/search, which
the code treats as absent — constrains nothing. -/
def specFilterPasses (filter : FilterConfig) (r : DataRecord) : Bool :=
  (match filter.category with
   | none => true
   | some c => c == "" || r.category == c) &&
  (match filter.status with
   | none => true
   | some s => r.status == s) &&
  (match filter.dateRange with
   | none => true
   | some dr =>
       decide (dr.start ≤ r.createdAt) && decide (r.createdAt ≤ dr.stop)) &&
  (match filter.search with
   | none => true
   | some s =>
       s == "" ||
         strContains
           (toLowerStr (r.title ++ " " ++ r.description ++ " " ++ r.category))
           (toLowerStr s))

/-- An early-return guard equals conjunction with the negated condition. -/
theorem if_bool_chain (a b : Bool) :
    (if a = true then false else b) = (!a && b) := by
  cases a <;> simp

/-- Negating a strict comparison gives the reversed inclusive one. -/
theorem not_decide_lt (a b : Nat) : (!decide (a < b)) = decide (b ≤ a) := by
  by_cases h : a < b
  · have hn : ¬b ≤ a := by omega
    simp [h, hn]
  · have hy : b ≤ a := by omega
    simp [h, hy]

/-- The body of the `filterRecords` callback coincides with the
specification's conjunctive reading. -/
theorem recordPasses_eq_spec (f : FilterConfig) (r : DataRecord) :
    DataUtils.recordPasses f r = specFilterPasses f r := by
  rcases f with ⟨c, s, d, q⟩
  simp only [DataUtils.recordPasses, specFilterPasses, if_bool_chain]
  cases c with
  | none =>
    cases s with
    | none =>
      cases d with
      | none =>
        cases q with
        | none => rfl
        | some qs => simp [bne, Bool.not_and, Bool.not_not, Bool.and_assoc]
      | some dr =>
        cases q with
        | none => simp [not_decide_lt, Bool.and_assoc]
        | some qs =>
          simp [not_decide_lt, Bool.and_assoc, bne, Bool.not_and, Bool.not_not]
    | some st =>
      cases d with
      | none =>
        cases q with
        | none => simp [bne]
        | some qs => simp [bne, Bool.not_and, Bool.not_not, Bool.and_assoc]
      | some dr =>
        cases q with
        | none => simp [not_decide_lt, Bool.and_assoc, bne]
        | some qs =>
          simp [not_decide_lt, Bool.and_assoc, bne, Bool.not_and, Bool.not_not]
  | some cs =>
    cases s with
    | none =>
      cases d with
      | none =>
        cases q with
        | none => simp [bne, Bool.not_and, Bool.not_not, Bool.and_assoc]
        | some qs => simp [bne, Bool.not_and, Bool.not_not, Bool.and_assoc]
      | some dr =>
        cases q with
        | none => simp [not_decide_lt, Bool.and_assoc, bne, Bool.not_and, Bool.not_not]
        | some qs =>
          simp [not_decide_lt, Bool.and_assoc, bne, Bool.not_and, Bool.not_not]
    | some st =>
      cases d with
      | none =>
        cases q with
        | none => simp [bne, Bool.not_and, Bool.not_not, Bool.and_assoc]
        | some qs => simp [bne, Bool.not_and, Bool.not_not, Bool.and_assoc]
      | some dr =>
        cases q with
        | none => simp [not_decide_lt, Bool.and_assoc, bne, Bool.not_and, Bool.not_not]
        | some qs =>
          simp [not_decide_lt, Bool.and_assoc, bne, Bool.not_and, Bool.not_not]

/-- A record whose title/description boundary spells the search term: the
plain concatenation `title ++ description ++ category` is "abxc". -/
def searchRec : DataRecord :=
  { id := "1", userId := "u", title := "a", description := "bx",
    category := "c", value := 0, status := .active,
    createdAt := 0, updatedAt := 0 }

/-- A filter with only the search criterion "ab". -/
def searchFilter : FilterConfig :=
  { category := none, status := none, dateRange := none, search := some "ab" }

/-- C6 counterexample: `searchRec` matches the claim's search criterion —
"ab" is a (case-insensitive) substring of the plain concatenation of
title, description and category — and no other criterion is present, yet
`filterRecords` drops it: the code searches the space-separated
`` `${title} ${description} ${category}` ``, i.e. `"a bx c"`. -/
theorem C6_counterexample :
    strContains
        (toLowerStr (searchRec.title ++ searchRec.description ++
          searchRec.category)) (toLowerStr "ab") = true ∧
    searchFilter =
      { category := none, status := none, dateRange := none,
        search := some "ab" } ∧
    DataUtils.filterRecords [searchRec] searchFilter = [] := by
  refine ⟨by decide, rfl, by decide⟩

/-- C6 (amended): `filterRecords` returns exactly the records satisfying
the conjunction of the provided criteria — category equality, status
equality, inclusive date-range membership of `createdAt`, and
case-insensitive substring search over the **space-separated**
concatenation of title, description, and category — where an absent (or
empty-string) criterion constrains nothing; in particular a filter whose
only criterion is the empty search string returns the records unchanged. -/
theorem C6_filter_conjunctive (records : List DataRecord)
    (filter : FilterConfig) :
    DataUtils.filterRecords records filter =
      records.filter (specFilterPasses filter) ∧
    DataUtils.filterRecords records
      { category := none, status := none, dateRange := none,
        search := some "" } = records := by
  constructor
  · exact List.filter_congr (fun r _ => recordPasses_eq_spec filter r)
  · exact List.filter_eq_self.mpr (fun r _ => rfl)

/-- The shape checks of `signupSchema`: name at least 2 characters,
password at least 6 and equal to its confirmation, and a well-formed email
(under-approximated here by containing an `@`; the zod e-mail regex implies
it). -/
def signupShapeOk (f : SignupForm) : Prop :=
  2 ≤ f.name.length ∧ 6 ≤ f.password.length ∧
  f.password = f.confirmPassword ∧ '@' ∈ f.email.data

/-- The user object `UserManager.addUser` constructs from a signup form at
clock instant `now` with the given role. -/
def signupUser (f : SignupForm) (now : Nat) (role : Role) : User :=
  { id := toString now, name := f.name, email := f.email, role := role,
    createdAt := now, updatedAt := now }

/-- Running a sequence of signups (each with its `Date.now()` reading)
through `UserManager.addUser`, starting from the empty collection. -/
def buildUsers (inputs : List (SignupForm × Nat)) : List User :=
  inputs.foldl (fun users fi => (UserManager.addUser users fi.1 fi.2).1) []

/-- Once the collection is non-empty, every further signup gets role
`user` and is appended. -/
theorem foldl_addUser_nonempty (inputs : List (SignupForm × Nat)) :
    ∀ (acc : List User), acc ≠ [] →
      inputs.foldl (fun users fi => (UserManager.addUser users fi.1 fi.2).1)
          acc =
        acc ++ inputs.map (fun fi => signupUser fi.1 fi.2 Role.user) := by
  induction inputs with
  | nil => intro acc _; simp
  | cons fi rest ih =>
    intro acc hacc
    have hstep : (UserManager.addUser acc fi.1 fi.2).1 =
        acc ++ [signupUser fi.1 fi.2 Role.user] := by
      simp [UserManager.addUser, signupUser, List.isEmpty_iff, hacc]
    simp only [List.foldl_cons, hstep]
    rw [ih (acc ++ [signupUser fi.1 fi.2 Role.user]) (by simp)]
    simp

/-- `buildUsers` makes the very first signup the admin and everyone after
a plain user, in order. -/
theorem buildUsers_cons (fi : SignupForm × Nat)
    (rest : List (SignupForm × Nat)) :
    buildUsers (fi :: rest) =
      signupUser fi.1 fi.2 Role.admin ::
        rest.map (fun x => signupUser x.1 x.2 Role.user) := by
  unfold buildUsers
  simp only [List.foldl_cons]
  have hstep : (UserManager.addUser [] fi.1 fi.2).1 =
      [signupUser fi.1 fi.2 Role.admin] := by
    simp [UserManager.addUser, signupUser]
  rw [hstep, foldl_addUser_nonempty rest [signupUser fi.1 fi.2 Role.admin]
    (by simp)]
  simp

/-- In a collection with pairwise-distinct emails, `findByEmail` at the
i-th user's email returns exactly the i-th user. -/
theorem findByEmail_get (us : List User)
    (hnd : (us.map User.email).Nodup) :
    ∀ (i : Nat) (hi : i < us.length),
      UserManager.findByEmail us (us.get ⟨i, hi⟩).email =
        some (us.get ⟨i, hi⟩) := by
  induction us with
  | nil => intro i hi; simp at hi
  | cons u us ih =>
    intro i hi
    cases i with
    | zero => simp [UserManager.findByEmail, List.find?]
    | succ n =>
      have hn : n < us.length := by simpa using hi
      have hget : (u :: us).get ⟨n + 1, hi⟩ = us.get ⟨n, hn⟩ := rfl
      have hmem : (us.get ⟨n, hn⟩).email ∈ us.map User.email :=
        List.mem_map_of_mem User.email (us.get_mem n hn)
      have hne : u.email ≠ (us.get ⟨n, hn⟩).email := by
        intro heq
        exact (List.nodup_cons.mp (by simpa using hnd)).1 (heq ▸ hmem)
      have hbeq : (u.email == (us.get ⟨n, hn⟩).email) = false := by
        simpa using hne
      rw [hget]
      simp only [UserManager.findByEmail, List.find?, hbeq]
      exact ih (List.nodup_cons.mp (by simpa using hnd)).2 n hn

instance (f : SignupForm) : Decidable (signupShapeOk f) := by
  unfold signupShapeOk
  exact inferInstance

/-- C1: for a sequence of well-shaped signups with pairwise-distinct
emails run from the empty collection, the user added when the collection
was empty (the first) gets role `admin`, every later one gets role `user`,
and `findByEmail` at the i-th signup's email returns exactly that user
with the assigned role (and the form's name and email). -/
theorem C1_first_user_admin (inputs : List (SignupForm × Nat)) (i : Nat)
    (hi : i < inputs.length)
    (hshape : ∀ fi ∈ inputs, signupShapeOk fi.1)
    (hnd : (inputs.map (fun fi => fi.1.email)).Nodup) :
    UserManager.findByEmail (buildUsers inputs)
        (inputs.get ⟨i, hi⟩).1.email =
      some (signupUser (inputs.get ⟨i, hi⟩).1 (inputs.get ⟨i, hi⟩).2
        (if i = 0 then Role.admin else Role.user)) := by
  cases inputs with
  | nil => simp at hi
  | cons fi rest =>
    rw [buildUsers_cons]
    have hlen : i < (signupUser fi.1 fi.2 Role.admin ::
        rest.map (fun x => signupUser x.1 x.2 Role.user)).length := by
      simpa using hi
    have hmap : ((signupUser fi.1 fi.2 Role.admin ::
          rest.map (fun x => signupUser x.1 x.2 Role.user)).map User.email) =
        (fi :: rest).map (fun x => x.1.email) := by
      simp [signupUser, List.map_map, Function.comp]
    have hnd' : ((signupUser fi.1 fi.2 Role.admin ::
        rest.map (fun x => signupUser x.1 x.2 Role.user)).map
          User.email).Nodup := by
      rw [hmap]
      exact hnd
    have hget : (signupUser fi.1 fi.2 Role.admin ::
          rest.map (fun x => signupUser x.1 x.2 Role.user)).get ⟨i, hlen⟩ =
        signupUser ((fi :: rest).get ⟨i, hi⟩).1 ((fi :: rest).get ⟨i, hi⟩).2
          (if i = 0 then Role.admin else Role.user) := by
      cases i with
      | zero => rfl
      | succ n =>
        have hn : n < rest.length := by simpa using hi
        simp [List.getElem_map]
    have h := findByEmail_get _ hnd' i hlen
    rw [hget] at h
    exact h

/-- A well-shaped signup form. -/
def sfA : SignupForm :=
  { name := "Ann Lee", email := "ann@example.com", password := "secret1",
    confirmPassword := "secret1" }

/-- A second well-shaped signup form with a different email. -/
def sfB : SignupForm :=
  { name := "Bob Roe", email := "bob@example.com", password := "secret2",
    confirmPassword := "secret2" }

/-- C1 witness: after signing up Ann then Bob, Ann's email finds the admin
and Bob's email finds a plain user. -/
theorem C1_first_user_admin_witness :
    UserManager.findByEmail (buildUsers [(sfA, 1), (sfB, 2)]) sfA.email =
      some (signupUser sfA 1 Role.admin) ∧
    UserManager.findByEmail (buildUsers [(sfA, 1), (sfB, 2)]) sfB.email =
      some (signupUser sfB 2 Role.user) := by
  have h0 := C1_first_user_admin [(sfA, 1), (sfB, 2)] 0 (by decide)
    (by decide) (by decide)
  have h1 := C1_first_user_admin [(sfA, 1), (sfB, 2)] 1 (by decide)
    (by decide) (by decide)
  exact ⟨h0, h1⟩

namespace DataUtils

/-- The comparison flips sign when its arguments swap. -/
theorem cmpKey_neg (k : SortKey) (a b : DataRecord) :
    cmpKey k a b = -(cmpKey k b a) := by
  cases k <;> simp only [cmpKey] <;> exact ltCmp_neg _ _

/-- The ascending comparator relation is exactly `comparison ≤ 0`. -/
theorem recordSortLE_asc_iff (k : SortKey) (a b : DataRecord) :
    recordSortLE { key := k, direction := .asc } a b = true ↔
      cmpKey k a b ≤ 0 := by
  simp [recordSortLE]

/-- The descending comparator relation is exactly `comparison ≥ 0`. -/
theorem recordSortLE_desc_iff (k : SortKey) (a b : DataRecord) :
    recordSortLE { key := k, direction := .desc } a b = true ↔
      0 ≤ cmpKey k a b := by
  simp [recordSortLE, neg_nonpos]

/-- `comparison ≤ 0` coincides with the field-wise `≤`. -/
theorem cmpKey_le_zero_iff (k : SortKey) (a b : DataRecord) :
    cmpKey k a b ≤ 0 ↔ keyLe k a b := by
  cases k <;> simp only [cmpKey, keyLe] <;> exact ltCmp_le_zero_iff _ _

/-- Transitivity of zero comparisons out of a common left argument. -/
theorem cmpKey_zero_right_trans (k : SortKey) {a b c : DataRecord}
    (h1 : cmpKey k a b = 0) (h2 : cmpKey k a c = 0) :
    cmpKey k b c = 0 := by
  cases k <;> simp only [cmpKey, ltCmp_eq_zero_iff] at h1 h2 ⊢ <;>
    rw [← h1, ← h2]

/-- The comparator is transitive (needed by `mergeSort`). -/
theorem recordSortLE_trans (cfg : SortConfig) :
    ∀ (a b c : DataRecord), recordSortLE cfg a b → recordSortLE cfg b c →
      recordSortLE cfg a c := by
  intro a b c hab hbc
  rcases cfg with ⟨k, dir⟩
  have htrans : ∀ x y z : DataRecord,
      cmpKey k x y ≤ 0 → cmpKey k y z ≤ 0 → cmpKey k x z ≤ 0 := by
    intro x y z h1 h2
    rw [cmpKey_le_zero_iff] at h1 h2 ⊢
    revert h1 h2
    cases k <;> exact fun h1 h2 => le_trans h1 h2
  cases dir with
  | asc =>
    rw [recordSortLE_asc_iff] at hab hbc ⊢
    exact htrans a b c hab hbc
  | desc =>
    rw [recordSortLE_desc_iff] at hab hbc ⊢
    have h1 : cmpKey k b a ≤ 0 := by
      rw [cmpKey_neg]
      omega
    have h2 : cmpKey k c b ≤ 0 := by
      rw [cmpKey_neg]
      omega
    have := htrans c b a h2 h1
    rw [cmpKey_neg] at this
    omega

/-- The comparator is total (needed by `mergeSort`). -/
theorem recordSortLE_total (cfg : SortConfig) :
    ∀ (a b : DataRecord), recordSortLE cfg a b || recordSortLE cfg b a := by
  intro a b
  rcases cfg with ⟨k, dir⟩
  have h : cmpKey k a b ≤ 0 ∨ cmpKey k b a ≤ 0 := by
    have := cmpKey_neg k a b
    omega
  cases dir with
  | asc =>
    rcases h with h | h
    · simp [recordSortLE_asc_iff, h]
    · simp [recordSortLE_asc_iff, h]
  | desc =>
    rcases h with h | h
    · have : 0 ≤ cmpKey k b a := by
        have := cmpKey_neg k a b
        omega
      simp [recordSortLE_desc_iff, this]
    · have : 0 ≤ cmpKey k a b := by
        have := cmpKey_neg k a b
        omega
      simp [recordSortLE_desc_iff, this]

/-- Records with equal comparisons are `≤` either way, in both
directions. -/
theorem recordSortLE_of_cmp_zero (k : SortKey) (dir : SortOrder)
    {a b : DataRecord} (h : cmpKey k a b = 0) :
    recordSortLE { key := k, direction := dir } a b = true := by
  cases dir with
  | asc => rw [recordSortLE_asc_iff]; omega
  | desc => rw [recordSortLE_desc_iff]; omega

end DataUtils

namespace DataUtils

/-- Stability of `sortRecords`: for either direction, the subsequence of
records whose key compares equal to a reference record's key is returned in
exactly its input order. -/
theorem sortRecords_stable (rs : List DataRecord) (k : SortKey)
    (dir : SortOrder) (r₀ : DataRecord) :
    (sortRecords rs { key := k, direction := dir }).filter
        (fun r => decide (cmpKey k r₀ r = 0)) =
      rs.filter (fun r => decide (cmpKey k r₀ r = 0)) := by
  have htrans := recordSortLE_trans { key := k, direction := dir }
  have htotal := recordSortLE_total { key := k, direction := dir }
  have hpw : (rs.filter (fun r => decide (cmpKey k r₀ r = 0))).Pairwise
      (fun a b => recordSortLE { key := k, direction := dir } a b = true) := by
    apply List.pairwise_of_forall_mem_list
    intro a ha b hb
    have ha0 : cmpKey k r₀ a = 0 := by
      simpa using (List.mem_filter.mp ha).2
    have hb0 : cmpKey k r₀ b = 0 := by
      simpa using (List.mem_filter.mp hb).2
    exact recordSortLE_of_cmp_zero k dir (cmpKey_zero_right_trans k ha0 hb0)
  have h1 : List.Sublist (rs.filter (fun r => decide (cmpKey k r₀ r = 0)))
      (List.mergeSort rs (recordSortLE { key := k, direction := dir })) :=
    List.sublist_mergeSort htrans htotal hpw (List.filter_sublist rs)
  have h2 := h1.filter (fun r => decide (cmpKey k r₀ r = 0))
  have h3 : (rs.filter (fun r => decide (cmpKey k r₀ r = 0))).filter
      (fun r => decide (cmpKey k r₀ r = 0)) =
      rs.filter (fun r => decide (cmpKey k r₀ r = 0)) :=
    List.filter_eq_self.mpr (fun a ha => (List.mem_filter.mp ha).2)
  rw [h3] at h2
  have hperm : (List.mergeSort rs
      (recordSortLE { key := k, direction := dir })).Perm rs :=
    List.mergeSort_perm rs _
  have hlen : ((List.mergeSort rs
      (recordSortLE { key := k, direction := dir })).filter
        (fun r => decide (cmpKey k r₀ r = 0))).length =
      (rs.filter (fun r => decide (cmpKey k r₀ r = 0))).length :=
    (hperm.filter _).length_eq
  exact (h2.eq_of_length hlen.symm).symm

/-- The ascending sort is pairwise `keyLe`-ordered. -/
theorem sortRecords_sorted_asc (rs : List DataRecord) (k : SortKey) :
    (sortRecords rs { key := k, direction := .asc }).Pairwise (keyLe k) := by
  have h := List.sorted_mergeSort
    (recordSortLE_trans { key := k, direction := .asc })
    (recordSortLE_total { key := k, direction := .asc }) rs
  exact h.imp (fun hab =>
    (cmpKey_le_zero_iff k _ _).mp ((recordSortLE_asc_iff k _ _).mp hab))

/-- The descending sort is pairwise reverse-`keyLe`-ordered. -/
theorem sortRecords_sorted_desc (rs : List DataRecord) (k : SortKey) :
    (sortRecords rs { key := k, direction := .desc }).Pairwise
      (fun a b => keyLe k b a) := by
  have h := List.sorted_mergeSort
    (recordSortLE_trans { key := k, direction := .desc })
    (recordSortLE_total { key := k, direction := .desc }) rs
  refine h.imp (fun hab => ?_)
  have h0 := (recordSortLE_desc_iff k _ _).mp hab
  rw [← cmpKey_le_zero_iff]
  rw [cmpKey_neg] at h0
  omega

/-- Sorting ascending and then descending over pairwise-distinct keys
yields exactly the reverse of the ascending order. -/
theorem sortRecords_reversible (rs : List DataRecord) (k : SortKey)
    (hdist : rs.Pairwise (fun a b => cmpKey k a b ≠ 0)) :
    sortRecords (sortRecords rs { key := k, direction := .asc })
        { key := k, direction := .desc } =
      (sortRecords rs { key := k, direction := .asc }).reverse := by
  have hsym : ∀ {x y : DataRecord}, cmpKey k x y ≠ 0 → cmpKey k y x ≠ 0 := by
    intro x y h hc
    rw [cmpKey_neg, hc] at h
    exact h rfl
  have hLperm : (sortRecords rs { key := k, direction := .asc }).Perm rs :=
    List.mergeSort_perm rs _
  have hdistL : (sortRecords rs { key := k, direction := .asc }).Pairwise
      (fun a b => cmpKey k a b ≠ 0) := (hLperm.pairwise_iff hsym).mpr hdist
  have hsortedL := List.sorted_mergeSort
    (recordSortLE_trans { key := k, direction := .asc })
    (recordSortLE_total { key := k, direction := .asc }) rs
  have strictL : (sortRecords rs { key := k, direction := .asc }).Pairwise
      (fun a b => cmpKey k a b < 0) :=
    (hsortedL.and hdistL).imp (fun hab =>
      lt_of_le_of_ne ((recordSortLE_asc_iff k _ _).mp hab.1) hab.2)
  have hDperm : (sortRecords (sortRecords rs
        { key := k, direction := .asc })
      { key := k, direction := .desc }).Perm
      (sortRecords rs { key := k, direction := .asc }) :=
    List.mergeSort_perm _ _
  have hdistD := (hDperm.pairwise_iff hsym).mpr hdistL
  have hsortedD := List.sorted_mergeSort
    (recordSortLE_trans { key := k, direction := .desc })
    (recordSortLE_total { key := k, direction := .desc })
    (sortRecords rs { key := k, direction := .asc })
  have strictD : (sortRecords (sortRecords rs { key := k, direction := .asc })
      { key := k, direction := .desc }).Pairwise
      (fun a b => 0 < cmpKey k a b) :=
    (hsortedD.and hdistD).imp (fun hab =>
      lt_of_le_of_ne ((recordSortLE_desc_iff k _ _).mp hab.1) (Ne.symm hab.2))
  have hrev : (sortRecords rs { key := k, direction := .asc }).reverse.Pairwise
      (fun a b => 0 < cmpKey k a b) := by
    rw [List.pairwise_reverse]
    refine strictL.imp (fun hab => ?_)
    rw [cmpKey_neg] at hab
    omega
  have hperm2 : (sortRecords (sortRecords rs
        { key := k, direction := .asc })
      { key := k, direction := .desc }).Perm
      (sortRecords rs { key := k, direction := .asc }).reverse :=
    hDperm.trans (List.reverse_perm _).symm
  exact eq_of_perm_of_pairwise_asymm
    (r := fun a b => 0 < cmpKey k a b)
    (fun a b h hc => by
      have h1 : 0 < cmpKey k a b := h
      have h2 : 0 < cmpKey k b a := hc
      rw [cmpKey_neg] at h2
      omega)
    hperm2 strictD hrev

end DataUtils

/-- C7: `sortRecords` orders by the named field in the given direction
(pairwise field-`≤` ascending, reversed descending) on a permutation of the
input, is stable (records whose key compares equal keep their input
order), and is reversible: with pairwise-distinct key values, sorting
ascending and then descending the result on the same key yields the exact
reverse of the ascending order. -/
theorem C7_sortRecords (rs : List DataRecord) (k : SortKey) :
    (DataUtils.sortRecords rs { key := k, direction := .asc }).Pairwise
      (DataUtils.keyLe k) ∧
    (DataUtils.sortRecords rs { key := k, direction := .desc }).Pairwise
      (fun a b => DataUtils.keyLe k b a) ∧
    (∀ dir : SortOrder,
      (DataUtils.sortRecords rs { key := k, direction := dir }).Perm rs) ∧
    (∀ (r₀ : DataRecord) (dir : SortOrder),
      (DataUtils.sortRecords rs { key := k, direction := dir }).filter
          (fun r => decide (DataUtils.cmpKey k r₀ r = 0)) =
        rs.filter (fun r => decide (DataUtils.cmpKey k r₀ r = 0))) ∧
    (rs.Pairwise (fun a b => DataUtils.cmpKey k a b ≠ 0) →
      DataUtils.sortRecords
          (DataUtils.sortRecords rs { key := k, direction := .asc })
          { key := k, direction := .desc } =
        (DataUtils.sortRecords rs { key := k, direction := .asc }).reverse) :=
  ⟨DataUtils.sortRecords_sorted_asc rs k,
   DataUtils.sortRecords_sorted_desc rs k,
   fun _ => List.mergeSort_perm rs _,
   fun r₀ dir => DataUtils.sortRecords_stable rs k dir r₀,
   fun hdist => DataUtils.sortRecords_reversible rs k hdist⟩

/-- Fixture for the sort witness: created at instant 1. -/
def sortRecA : DataRecord :=
  { id := "1", userId := "u", title := "A", description := "d",
    category := "c", value := 1, status := .active,
    createdAt := 1, updatedAt := 1 }

/-- Fixture for the sort witness: created at instant 2. -/
def sortRecB : DataRecord :=
  { id := "2", userId := "u", title := "B", description := "d",
    category := "c", value := 2, status := .active,
    createdAt := 2, updatedAt := 2 }

/-- C7 witness: two records with distinct `createdAt` keys; the
distinctness hypothesis is discharged concretely and the desc-of-asc sort
is the reverse of the asc sort. -/
theorem C7_sortRecords_witness :
    ([sortRecB, sortRecA].Pairwise
      (fun a b => DataUtils.cmpKey .createdAt a b ≠ 0)) ∧
    DataUtils.sortRecords
        (DataUtils.sortRecords [sortRecB, sortRecA]
          { key := .createdAt, direction := .asc })
        { key := .createdAt, direction := .desc } =
      (DataUtils.sortRecords [sortRecB, sortRecA]
        { key := .createdAt, direction := .asc }).reverse :=
  ⟨by decide,
   (C7_sortRecords [sortRecB, sortRecA] .createdAt).2.2.2.2 (by decide)⟩
